import Mathlib

set_option maxRecDepth 16000

/-!
Verification of the OTP-forwarding daemon (`bot.js` / `config.js`).

The development shallowly embeds the parts of the program that the
specification speaks about:

* the dedup ledger (`sentMessageHashes`, a JS `Set` of MD5 hex strings,
  modelled as an insertion-ordered duplicate-free `List String`),
* persistence (`saveSentMessages` / `loadSentMessages`),
* the record fingerprint (MD5 over `row[0]_row[2]_row[3]_row[5]`,
  implemented bit-faithfully over `Nat` with explicit `% 2^32`),
* the polling tick (`pollSMSAPI`) with its single-flight guard,
* the dispatcher (`sendOTPToTelegram`) with per-channel isolation,
* the browser session state machine (`initializeBrowser` /
  `ensureBrowserActive`) driven by an environment oracle, and
* the captcha solver (`solveMathCaptcha`) with leftmost-match
  semantics of the regex `(\d+)\s*\+\s*(\d+)`.
-/

namespace OtpBot

/-! ### Constants from `bot.js` -/

def MAX_RECONNECT_ATTEMPTS : Nat := 5

def MAX_STORED_HASHES : Nat := 1000

/-- The three statically configured delivery channels (`config.js`). -/
def TELEGRAM_CHAT_IDS : List String :=
  ["-1003420206708", "-1003151782333", "-1002085925533"]

/-! ### MD5 (used by `fetchLatestSMS` via `crypto.createHash('md5')`)

All words are `Nat` kept below `2^32` by explicit reduction. -/

def mask32 : Nat := 4294967295

def pow32 : Nat := 4294967296

/-- 32-bit left rotation; the argument is assumed `< 2^32`. -/
def rotl32 (x s : Nat) : Nat :=
  ((x <<< s) ||| (x >>> (32 - s))) % pow32

/-- MD5 per-round shift amounts. -/
def md5S : List Nat :=
  [7, 12, 17, 22, 7, 12, 17, 22, 7, 12, 17, 22, 7, 12, 17, 22,
   5, 9, 14, 20, 5, 9, 14, 20, 5, 9, 14, 20, 5, 9, 14, 20,
   4, 11, 16, 23, 4, 11, 16, 23, 4, 11, 16, 23, 4, 11, 16, 23,
   6, 10, 15, 21, 6, 10, 15, 21, 6, 10, 15, 21, 6, 10, 15, 21]

/-- MD5 sine-derived constants. -/
def md5K : List Nat :=
  [0xd76aa478, 0xe8c7b756, 0x242070db, 0xc1bdceee,
   0xf57c0faf, 0x4787c62a, 0xa8304613, 0xfd469501,
   0x698098d8, 0x8b44f7af, 0xffff5bb1, 0x895cd7be,
   0x6b901122, 0xfd987193, 0xa679438e, 0x49b40821,
   0xf61e2562, 0xc040b340, 0x265e5a51, 0xe9b6c7aa,
   0xd62f105d, 0x02441453, 0xd8a1e681, 0xe7d3fbc8,
   0x21e1cde6, 0xc33707d6, 0xf4d50d87, 0x455a14ed,
   0xa9e3e905, 0xfcefa3f8, 0x676f02d9, 0x8d2a4c8a,
   0xfffa3942, 0x8771f681, 0x6d9d6122, 0xfde5380c,
   0xa4beea44, 0x4bdecfa9, 0xf6bb4b60, 0xbebfbc70,
   0x289b7ec6, 0xeaa127fa, 0xd4ef3085, 0x04881d05,
   0xd9d4d039, 0xe6db99e5, 0x1fa27cf8, 0xc4ac5665,
   0xf4292244, 0x432aff97, 0xab9423a7, 0xfc93a039,
   0x655b59c3, 0x8f0ccc92, 0xffeff47d, 0x85845dd1,
   0x6fa87e4f, 0xfe2ce6e0, 0xa3014314, 0x4e0811a1,
   0xf7537e82, 0xbd3af235, 0x2ad7d2bb, 0xeb86d391]

/-- The MD5 nonlinear function for round `i`. -/
def md5F (i b c d : Nat) : Nat :=
  if i < 16 then (b &&& c) ||| ((b ^^^ mask32) &&& d)
  else if i < 32 then (d &&& b) ||| ((d ^^^ mask32) &&& c)
  else if i < 48 then b ^^^ c ^^^ d
  else c ^^^ (b ||| (d ^^^ mask32))

/-- The MD5 message-word index for round `i`. -/
def md5G (i : Nat) : Nat :=
  if i < 16 then i
  else if i < 32 then (5 * i + 1) % 16
  else if i < 48 then (3 * i + 5) % 16
  else (7 * i) % 16

structure MD5State where
  a : Nat
  b : Nat
  c : Nat
  d : Nat
deriving Repr, DecidableEq

def md5Init : MD5State :=
  ⟨0x67452301, 0xefcdab89, 0x98badcfe, 0x10325476⟩

/-- One of the 64 MD5 rounds, `m` giving the block's 16 message words. -/
def md5Round (m : Nat → Nat) (st : MD5State) (i : Nat) : MD5State :=
  let f := (md5F i st.b st.c st.d + st.a + md5K.getD i 0 + m (md5G i)) % pow32
  ⟨st.d, (st.b + rotl32 f (md5S.getD i 0)) % pow32, st.b, st.c⟩

/-- Little-endian 32-bit word at index `g` of a 64-byte block. -/
def blockWord (block : List Nat) (g : Nat) : Nat :=
  block.getD (4 * g) 0 + 256 * block.getD (4 * g + 1) 0 +
    65536 * block.getD (4 * g + 2) 0 + 16777216 * block.getD (4 * g + 3) 0

/-- Process one 64-byte block. -/
def md5ProcessBlock (st : MD5State) (block : List Nat) : MD5State :=
  let r := (List.range 64).foldl (md5Round (blockWord block)) st
  ⟨(st.a + r.a) % pow32, (st.b + r.b) % pow32,
   (st.c + r.c) % pow32, (st.d + r.d) % pow32⟩

/-- MD5 padding: `0x80`, zeros to 56 mod 64, then the bit length as a
64-bit little-endian integer. -/
def md5Pad (bytes : List Nat) : List Nat :=
  let len := bytes.length
  let zeros := (120 - ((len + 1) % 64)) % 64
  bytes ++ [128] ++ List.replicate zeros 0 ++
    (List.range 8).map (fun i => ((8 * len) >>> (8 * i)) &&& 255)

/-- Split a padded message into its 64-byte blocks. -/
def md5Blocks (bytes : List Nat) : List (List Nat) :=
  (List.range (bytes.length / 64)).map (fun i => (bytes.drop (64 * i)).take 64)

/-- MD5 digest (16 bytes) of a byte sequence. -/
def md5Bytes (bytes : List Nat) : List Nat :=
  let fin := (md5Blocks (md5Pad bytes)).foldl md5ProcessBlock md5Init
  [fin.a, fin.b, fin.c, fin.d].foldr
    (fun w acc =>
      [w &&& 255, (w >>> 8) &&& 255, (w >>> 16) &&& 255, (w >>> 24) &&& 255] ++ acc)
    []

def hexChars : List Char :=
  "0123456789abcdef".data

def byteToHex (b : Nat) : List Char :=
  [hexChars.getD (b / 16) '0', hexChars.getD (b % 16) '0']

/-- UTF-8 encoding of one character (Node's default string encoding). -/
def utf8Encode (c : Char) : List Nat :=
  let n := c.toNat
  if n < 128 then [n]
  else if n < 2048 then
    [192 ||| (n >>> 6), 128 ||| (n &&& 63)]
  else if n < 65536 then
    [224 ||| (n >>> 12), 128 ||| ((n >>> 6) &&& 63), 128 ||| (n &&& 63)]
  else
    [240 ||| (n >>> 18), 128 ||| ((n >>> 12) &&& 63),
     128 ||| ((n >>> 6) &&& 63), 128 ||| (n &&& 63)]

def utf8Bytes (s : String) : List Nat :=
  s.data.foldr (fun c acc => utf8Encode c ++ acc) []

/-- `crypto.createHash('md5').update(s).digest('hex')`. -/
def md5hex (s : String) : String :=
  String.mk ((md5Bytes (utf8Bytes s)).foldr (fun b acc => byteToHex b ++ acc) [])

/-! ### Records and fingerprints (`fetchLatestSMS`) -/

/-- One raw row of the `aaData` payload; only the positions the code
reads (`row[0]`, `row[2]`, `row[3]`, `row[4]`, `row[5]`) are modelled. -/
structure SMSRow where
  c0 : String
  c2 : String
  c3 : String
  c4 : String
  c5 : String
deriving Repr, DecidableEq

/-- The string hashed by `fetchLatestSMS`:
`row[0]_row[2]_row[3]_row[5]`. -/
def msgData (row : SMSRow) : String :=
  row.c0 ++ "_" ++ row.c2 ++ "_" ++ row.c3 ++ "_" ++ row.c5

/-- The dedup fingerprint: MD5 hex digest of `msgData`. -/
def fingerprint (row : SMSRow) : String :=
  md5hex (msgData row)

/-- The message object built by `fetchLatestSMS` for each row. -/
structure SMSMessage where
  hash : String
  date : String
  destination_addr : String
  source_addr : String
  client : String
  short_message : String
deriving Repr, DecidableEq

/-- Row-to-message mapping inside `fetchLatestSMS`. -/
def rowToMessage (row : SMSRow) : SMSMessage :=
  { hash := fingerprint row
    date := row.c0
    destination_addr := row.c2
    source_addr := row.c3
    client := row.c4
    short_message := row.c5 }

/-- `fetchLatestSMS` on a successful response with rows `rows`
(timeout or missing `aaData` corresponds to the empty list). -/
def fetchLatestSMS (rows : List SMSRow) : List SMSMessage :=
  rows.map rowToMessage

/-! ### The dedup ledger

A JS `Set` iterates in insertion order, so the ledger is a
duplicate-free `List String`; `Array.from` is the identity and
`add` appends when the element is absent. -/

/-- `new Set(list)`: keep the first occurrence of each element,
in order. -/
def jsSetOfList (l : List String) : List String :=
  l.foldl (fun acc h => if h ∈ acc then acc else acc ++ [h]) []

/-- `Array.from(set).slice(-MAX_STORED_HASHES)` as written by
`saveSentMessages`: the most recent (at most) 1000 entries. -/
def saveSentMessages (ledger : List String) : List String :=
  ledger.drop (ledger.length - MAX_STORED_HASHES)

/-- `loadSentMessages`: `new Set(JSON.parse(file))` when the file is
present and parses; otherwise the ledger is the empty set. -/
def loadSentMessages (stored : Option (List String)) : List String :=
  match stored with
  | some l => jsSetOfList l
  | none => []

/-! ### The polling tick (`pollSMSAPI`) -/

/-- Per-message ledger update inside the tick loop: skip when the hash
is present; otherwise add it, and when the set has grown beyond
`MAX_STORED_HASHES` keep only the last 500 entries.  The `Bool` is
whether the message was new (delivered). -/
def tickStep (ledger : List String) (h : String) : List String × Bool :=
  if h ∈ ledger then (ledger, false)
  else
    let l1 := ledger ++ [h]
    if l1.length > MAX_STORED_HASHES then (l1.drop (l1.length - 500), true)
    else (l1, true)

/-- The tick's message loop: final ledger and the delivered messages in
order. -/
def tickLoop (ledger : List String) (msgs : List SMSMessage) :
    List String × List SMSMessage :=
  match msgs with
  | [] => (ledger, [])
  | m :: rest =>
    let s := tickStep ledger m.hash
    let r := tickLoop s.1 rest
    (r.1, if s.2 then m :: r.2 else r.2)

/-- `sendOTPToTelegram`: one delivery attempt per configured channel,
each wrapped in its own try/catch; `outcome ch` tells whether
`bot.sendMessage` succeeded for channel `ch`.  Total: no failure
escapes the dispatcher. -/
def sendOTPToTelegram (channels : List String) (outcome : String → Bool) :
    List (String × Bool) :=
  channels.map (fun ch => (ch, outcome ch))

/-- The module-level mutable state read and written by a tick. -/
structure PollState where
  sentMessageHashes : List String
  isPolling : Bool
  pollCount : Nat
  stored : Option (List String)
deriving Repr, DecidableEq

/-- Result of one `pollSMSAPI` invocation: the state afterwards, the
delivered messages, the per-message per-channel dispatch results, and
whether `saveSentMessages` was invoked. -/
structure TickResult where
  state : PollState
  delivered : List SMSMessage
  results : List (List (String × Bool))
  didPersist : Bool
deriving Repr, DecidableEq

/-- One `pollSMSAPI` invocation.

`msgs` is what `fetchLatestSMS` returned (empty on timeout or fetch
failure).  `raised = some k` injects an exception after `k` messages of
the loop were processed (the code's defensive try/catch; nothing in the
body actually throws), in which case the save is skipped; the `finally`
clause clears `isPolling` in every case.  `sendOutcome m ch` is the
success of `bot.sendMessage` for message `m` on channel `ch`. -/
def pollSMSAPI (st : PollState) (msgs : List SMSMessage) (raised : Option Nat)
    (sendOutcome : SMSMessage → String → Bool) (channels : List String) :
    TickResult :=
  if st.isPolling then ⟨st, [], [], false⟩
  else
    let processed := match raised with
      | some k => msgs.take k
      | none => msgs
    let lp := tickLoop st.sentMessageHashes processed
    let results := lp.2.map (fun m => sendOTPToTelegram channels (sendOutcome m))
    let doSave := raised.isNone && !lp.2.isEmpty
    { state :=
        { sentMessageHashes := lp.1
          isPolling := false
          pollCount := st.pollCount + 1
          stored := if doSave then some (saveSentMessages lp.1) else st.stored }
      delivered := lp.2
      results := results
      didPersist := doSave }

/-! ### Browser session state machine

`browser` and `page` are the module-level handles (`true` = non-null);
`reconnectAttempts` is the reconnection counter.  The environment
oracle says where `initializeBrowser`'s sequence fails, and whether the
liveness probe (`page.evaluate(() => true)`) throws. -/

structure BrowserState where
  browser : Bool
  page : Bool
  reconnectAttempts : Nat
deriving Repr, DecidableEq

/-- Outcome of one run of `initializeBrowser`'s body, naming the step
that throws (or `success`). -/
inductive InitOutcome where
  /-- `puppeteer.launch` throws; the `browser` variable keeps its
  previous value. -/
  | launchFail
  /-- `browser.newPage()` throws after `browser` was assigned. -/
  | newPageFail
  /-- navigation to the login page throws. -/
  | gotoLoginFail
  /-- `solveMathCaptcha` finds no arithmetic challenge
  (`throw 'Could not solve math captcha'`). -/
  | challengeUnsolved
  /-- typing credentials or pressing Enter throws. -/
  | typeFail
  /-- after navigation the URL still contains `login`
  (`throw 'Login failed - still on login page'`). -/
  | authRejected
  /-- navigation to the SMS reports page throws. -/
  | gotoReportsFail
  /-- the whole sequence succeeds. -/
  | success
deriving Repr, DecidableEq

/-- `initializeBrowser`: runs the launch/login sequence; the catch
only logs and returns `false`, leaving the handles and the counter as
the failing step left them.  On success `reconnectAttempts` is reset
to zero. -/
def initializeBrowser (st : BrowserState) (o : InitOutcome) :
    BrowserState × Bool :=
  match o with
  | .launchFail => (st, false)
  | .newPageFail => ({ st with browser := true }, false)
  | .gotoLoginFail => ({ st with browser := true, page := true }, false)
  | .challengeUnsolved => ({ st with browser := true, page := true }, false)
  | .typeFail => ({ st with browser := true, page := true }, false)
  | .authRejected => ({ st with browser := true, page := true }, false)
  | .gotoReportsFail => ({ st with browser := true, page := true }, false)
  | .success => (⟨true, true, 0⟩, true)

/-- `ensureBrowserActive`.  `evalThrows` is whether the liveness probe
throws; `o` is the outcome of the (at most one) `initializeBrowser`
call this invocation makes. -/
def ensureBrowserActive (st : BrowserState) (evalThrows : Bool)
    (o : InitOutcome) : BrowserState × Bool :=
  if !st.browser || !st.page then initializeBrowser st o
  else if !evalThrows then (st, true)
  else
    let st1 : BrowserState := ⟨false, false, st.reconnectAttempts⟩
    if st1.reconnectAttempts < MAX_RECONNECT_ATTEMPTS then
      initializeBrowser ⟨false, false, st1.reconnectAttempts + 1⟩ o
    else (st1, false)

/-! ### The math-captcha solver (`solveMathCaptcha`)

The page evaluates, over every `label`/`span`/`div` element in
document order, `text.trim().match(/(\d+)\s*\+\s*(\d+)/)` and returns
the sum of the two captured integers of the first element that
matches; `null` when none does.  The regex atoms `\d+`, `\s*`, `+` use
disjoint character classes, so the backtracking match equals the
greedy one implemented here, and the leftmost match is found by
scanning start positions left to right. -/

/-- JS `\d`: exactly the ASCII digits. -/
def jsIsDigit (c : Char) : Bool :=
  48 ≤ c.toNat && c.toNat ≤ 57

/-- JS `\s` (also the class trimmed by `String.prototype.trim`):
whitespace, line terminators, BOM. -/
def jsIsSpace (c : Char) : Bool :=
  let n := c.toNat
  (9 ≤ n && n ≤ 13) || n = 32 || n = 160 || n = 5760 ||
    (8192 ≤ n && n ≤ 8202) || n = 8232 || n = 8233 || n = 8239 ||
    n = 8287 || n = 12288 || n = 65279

/-- `parseInt` on a captured digit string. -/
def digitsToNat (ds : List Char) : Nat :=
  ds.foldl (fun acc c => 10 * acc + (c.toNat - 48)) 0

/-- Try to match `(\d+)\s*\+\s*(\d+)` anchored at the head of `cs`,
returning the two captured integers: one or more digits, optional
whitespace, a plus sign, optional whitespace, one or more digits.
Since the atoms use disjoint character classes, this greedy match
coincides with the regex engine's backtracking match. -/
def matchPlusAt (cs : List Char) : Option (Nat × Nat) :=
  let d1 := cs.takeWhile jsIsDigit
  if d1.isEmpty then none
  else
    match (cs.dropWhile jsIsDigit).dropWhile jsIsSpace with
    | [] => none
    | c :: rest =>
      if c = '+' then
        let d2 := (rest.dropWhile jsIsSpace).takeWhile jsIsDigit
        if d2.isEmpty then none
        else some (digitsToNat d1, digitsToNat d2)
      else none

/-- Leftmost match of `(\d+)\s*\+\s*(\d+)` in a string
(`String.prototype.match` semantics). -/
def findPlusMatch : List Char → Option (Nat × Nat)
  | [] => none
  | c :: cs =>
    match matchPlusAt (c :: cs) with
    | some r => some r
    | none => findPlusMatch cs

/-- `String.prototype.trim`. -/
def jsTrim (cs : List Char) : List Char :=
  ((cs.dropWhile jsIsSpace).reverse.dropWhile jsIsSpace).reverse

/-- `solveMathCaptcha`, over the text contents of the page's
`label`/`span`/`div` elements in document order. -/
def solveMathCaptcha : List (List Char) → Option Nat
  | [] => none
  | t :: ts =>
    match findPlusMatch (jsTrim t) with
    | some r => some (r.1 + r.2)
    | none => solveMathCaptcha ts

/-! ### Concrete fixture for the intra-batch redelivery counterexample

A tick that starts with a full ledger (1000 entries) and receives a
batch `X :: 501 fresh records :: X`: the overflow trims triggered by
the fresh records evict `X`'s fingerprint mid-batch, and the trailing
duplicate of `X` is delivered a second time. -/

/-- A message whose dedup hash is `h` (the other fields are not read by
the tick loop). -/
def mkMsg (h : String) : SMSMessage :=
  ⟨h, "", "", "", "", ""⟩

/-- Hash number `n` of the fixture: `n` repetitions of `a` (distinct
lengths give distinct strings). -/
def cexHash (n : Nat) : String :=
  String.mk (List.replicate n 'a')

/-- A full ledger: 1000 distinct hashes. -/
def cexLedger : List String :=
  (List.range 1000).map cexHash

/-- The duplicated message. -/
def cexMsgX : SMSMessage :=
  mkMsg (cexHash 2000)

/-- The 501 fresh messages between the two copies of `X`. -/
def cexFresh : List SMSMessage :=
  (List.range 501).map (fun n => mkMsg (cexHash (1000 + n)))

/-- The batch: `X`, then 501 fresh messages, then `X` again. -/
def cexBatch : List SMSMessage :=
  cexMsgX :: cexFresh ++ [cexMsgX]

/-! ### Helper lemmas about the tick loop -/

theorem tickStep_of_mem {ledger : List String} {h : String} (hm : h ∈ ledger) :
    tickStep ledger h = (ledger, false) := by
  simp [tickStep, hm]

theorem tickStep_of_not_mem_small {ledger : List String} {h : String}
    (hm : h ∉ ledger) (hlen : ledger.length < MAX_STORED_HASHES) :
    tickStep ledger h = (ledger ++ [h], true) := by
  have hc : ¬ MAX_STORED_HASHES < ledger.length + 1 := by omega
  simp [tickStep, hm, hc]

theorem tickStep_of_not_mem_full {ledger : List String} {h : String}
    (hm : h ∉ ledger) (hlen : ledger.length = MAX_STORED_HASHES) :
    tickStep ledger h = ((ledger ++ [h]).drop 501, true) := by
  simp [tickStep, hm, hlen, MAX_STORED_HASHES]

theorem tickStep_length_le {ledger : List String} {h : String}
    (hl : ledger.length ≤ MAX_STORED_HASHES) :
    (tickStep ledger h).1.length ≤ MAX_STORED_HASHES := by
  by_cases hm : h ∈ ledger
  · simp [tickStep_of_mem hm, hl]
  · rcases Nat.lt_or_ge ledger.length MAX_STORED_HASHES with hlt | hge
    · rw [tickStep_of_not_mem_small hm hlt]
      simp only [List.length_append, List.length_singleton]
      omega
    · have heq : ledger.length = MAX_STORED_HASHES := le_antisymm hl hge
      rw [tickStep_of_not_mem_full hm heq]
      simp only [List.length_drop, List.length_append, List.length_singleton]
      omega

theorem tickStep_nodup {ledger : List String} {h : String} (hn : ledger.Nodup) :
    (tickStep ledger h).1.Nodup := by
  by_cases hm : h ∈ ledger
  · simp [tickStep_of_mem hm, hn]
  · have hn1 : (ledger ++ [h]).Nodup := by
      simp [List.nodup_append, hn, hm]
    simp only [tickStep, if_neg hm]
    split
    · exact ((ledger ++ [h]).drop_sublist _).nodup hn1
    · exact hn1

theorem tickStep_suffix {ledger : List String} {h : String} (hm : h ∉ ledger) :
    (tickStep ledger h).1 <:+ ledger ++ [h] := by
  simp only [tickStep, if_neg hm]
  split
  · exact (ledger ++ [h]).drop_suffix _
  · exact List.suffix_refl _

theorem tickLoop_length_le {msgs : List SMSMessage} :
    ∀ {ledger : List String}, ledger.length ≤ MAX_STORED_HASHES →
      (tickLoop ledger msgs).1.length ≤ MAX_STORED_HASHES := by
  induction msgs with
  | nil => intro ledger hl; simpa [tickLoop] using hl
  | cons m rest ih =>
    intro ledger hl
    simpa [tickLoop] using ih (tickStep_length_le hl)

theorem tickLoop_nodup {msgs : List SMSMessage} :
    ∀ {ledger : List String}, ledger.Nodup → (tickLoop ledger msgs).1.Nodup := by
  induction msgs with
  | nil => intro ledger hn; simpa [tickLoop] using hn
  | cons m rest ih =>
    intro ledger hn
    simpa [tickLoop] using ih (tickStep_nodup hn)

theorem tickLoop_ledger_of_no_delivered {msgs : List SMSMessage} :
    ∀ {ledger : List String}, (tickLoop ledger msgs).2 = [] →
      (tickLoop ledger msgs).1 = ledger := by
  induction msgs with
  | nil => intro ledger _; simp [tickLoop]
  | cons m rest ih =>
    intro ledger hd
    by_cases hm : m.hash ∈ ledger
    · simp only [tickLoop, tickStep_of_mem hm] at hd ⊢
      exact ih (by simpa using hd)
    · exfalso
      have h2 : (tickStep ledger m.hash).2 = true := by
        simp only [tickStep, if_neg hm]
        split <;> rfl
      simp [tickLoop, h2] at hd

theorem tickLoop_append (xs ys : List SMSMessage) :
    ∀ ledger : List String,
      tickLoop ledger (xs ++ ys) =
        ((tickLoop (tickLoop ledger xs).1 ys).1,
         (tickLoop ledger xs).2 ++ (tickLoop (tickLoop ledger xs).1 ys).2) := by
  induction xs with
  | nil => intro ledger; simp [tickLoop]
  | cons m rest ih =>
    intro ledger
    simp only [List.cons_append, tickLoop, ih]
    by_cases h2 : (tickStep ledger m.hash).2 <;> simp [h2, ih]

/-- Processing a batch of pairwise-fresh messages that keeps the set
within the cap: every message is delivered and the hashes are appended
in order. -/
theorem tickLoop_fresh (msgs : List SMSMessage) :
    ∀ ledger : List String, (∀ m ∈ msgs, m.hash ∉ ledger) →
      (msgs.map SMSMessage.hash).Nodup →
      ledger.length + msgs.length ≤ MAX_STORED_HASHES →
      tickLoop ledger msgs = (ledger ++ msgs.map SMSMessage.hash, msgs) := by
  induction msgs with
  | nil => intro ledger _ _ _; simp [tickLoop]
  | cons m rest ih =>
    intro ledger hfresh hnd hlen
    have hm : m.hash ∉ ledger := hfresh m (by simp)
    have hsmall : ledger.length < MAX_STORED_HASHES := by
      simp only [List.length_cons] at hlen
      omega
    have hstep := tickStep_of_not_mem_small hm hsmall
    have hrest : ∀ m' ∈ rest, m'.hash ∉ ledger ++ [m.hash] := by
      intro m' hm'
      simp only [List.mem_append, List.mem_singleton]
      push_neg
      refine ⟨hfresh m' (by simp [hm']), ?_⟩
      intro heq
      have : m.hash ∈ rest.map SMSMessage.hash :=
        heq ▸ List.mem_map_of_mem SMSMessage.hash hm'
      simp only [List.map_cons, List.nodup_cons] at hnd
      exact hnd.1 this
    have hnd' : (rest.map SMSMessage.hash).Nodup := by
      simp only [List.map_cons, List.nodup_cons] at hnd
      exact hnd.2
    have hlen' : (ledger ++ [m.hash]).length + rest.length ≤ MAX_STORED_HASHES := by
      simp only [List.length_append, List.length_singleton, List.length_cons,
        List.length_nil] at hlen ⊢
      omega
    simp [tickLoop, hstep, ih (ledger ++ [m.hash]) hrest hnd' hlen']

/-- A full ledger and a batch `X :: fresh ++ [X]` with 501 pairwise
distinct fresh messages: the overflow trims evict `X`'s fingerprint
mid-batch, and the trailing duplicate of the already delivered `X`
is delivered a second time. -/
theorem tickLoop_redelivers (ledger : List String) (X : SMSMessage)
    (fresh : List SMSMessage)
    (hlen : ledger.length = MAX_STORED_HASHES)
    (hX : X.hash ∉ ledger)
    (hfl : fresh.length = 501)
    (hfn : (fresh.map SMSMessage.hash).Nodup)
    (hfm : ∀ m ∈ fresh, m.hash ∉ ledger ∧ m.hash ≠ X.hash) :
    (tickLoop ledger (X :: (fresh ++ [X]))).2.count X = 2 := by
  have hne : fresh ≠ [] := by
    intro h
    rw [h] at hfl
    simp at hfl
  obtain ⟨F, mL, hsplit, hFlen⟩ :
      ∃ F mL, fresh = F ++ [mL] ∧ F.length = 500 := by
    refine ⟨fresh.dropLast, fresh.getLast hne,
      (List.dropLast_concat_getLast hne).symm, ?_⟩
    rw [List.length_dropLast, hfl]
  have hmLmem : mL ∈ fresh := by
    rw [hsplit]
    simp
  have hFsub : ∀ m ∈ F, m ∈ fresh := by
    intro m hm
    rw [hsplit]
    exact List.mem_append_left _ hm
  -- the fresh hashes, decomposed
  have hfn' := hfn
  rw [hsplit, List.map_append, List.map_singleton] at hfn'
  rcases List.nodup_append.mp hfn' with ⟨hFnodup, -, hdisj⟩
  have hmLnotF : mL.hash ∉ F.map SMSMessage.hash := fun hmem =>
    hdisj hmem (by simp)
  -- step 1: X is fresh, its insertion overflows the cap, trim to 500
  have hstep1 : tickStep ledger X.hash = ((ledger ++ [X.hash]).drop 501, true) :=
    tickStep_of_not_mem_full hX hlen
  have hL1 : (ledger ++ [X.hash]).drop 501 = ledger.drop 501 ++ [X.hash] :=
    List.drop_append_of_le_length (by rw [hlen]; norm_num [MAX_STORED_HASHES])
  have hL1len : ((ledger ++ [X.hash]).drop 501).length = 500 := by
    rw [hL1]
    simp [List.length_append, List.length_drop, hlen, MAX_STORED_HASHES]
  have hnotL1 : ∀ m ∈ fresh, m.hash ∉ (ledger ++ [X.hash]).drop 501 := by
    intro m hm hmem
    rw [hL1, List.mem_append] at hmem
    rcases hmem with hmem | hmem
    · exact (hfm m hm).1 (List.mem_of_mem_drop hmem)
    · exact (hfm m hm).2 (by simpa using hmem)
  -- step 2: the first 500 fresh messages are appended without trimming
  have hrun1 : tickLoop ((ledger ++ [X.hash]).drop 501) F =
      ((ledger ++ [X.hash]).drop 501 ++ F.map SMSMessage.hash, F) :=
    tickLoop_fresh F _ (fun m hm => hnotL1 m (hFsub m hm)) hFnodup
      (by rw [hL1len, hFlen]; norm_num [MAX_STORED_HASHES])
  have hL2len : ((ledger ++ [X.hash]).drop 501 ++ F.map SMSMessage.hash).length =
      MAX_STORED_HASHES := by
    simp [List.length_append, hL1len, hFlen, MAX_STORED_HASHES]
  -- step 3: the 501st fresh message overflows again; the trim drops all
  -- of the 500 survivors of step 1, and with them X's fingerprint
  have hmLnotL2 : mL.hash ∉ (ledger ++ [X.hash]).drop 501 ++ F.map SMSMessage.hash := by
    rw [List.mem_append]
    rintro (hmem | hmem)
    · exact hnotL1 mL hmLmem hmem
    · exact hmLnotF hmem
  have hstep3 : tickStep ((ledger ++ [X.hash]).drop 501 ++ F.map SMSMessage.hash) mL.hash =
      ((((ledger ++ [X.hash]).drop 501 ++ F.map SMSMessage.hash) ++ [mL.hash]).drop 501,
        true) :=
    tickStep_of_not_mem_full hmLnotL2 hL2len
  have hL3 : ((((ledger ++ [X.hash]).drop 501 ++ F.map SMSMessage.hash) ++ [mL.hash]).drop 501) =
      (F.map SMSMessage.hash ++ [mL.hash]).drop 1 := by
    rw [List.append_assoc, List.drop_append_eq_append_drop,
      List.drop_eq_nil_of_le (by rw [hL1len]; norm_num), hL1len]
    norm_num
  have hXnotL3 : X.hash ∉ (F.map SMSMessage.hash ++ [mL.hash]).drop 1 := by
    intro hmem
    have hmem' := List.mem_of_mem_drop hmem
    rw [List.mem_append] at hmem'
    rcases hmem' with hmem' | hmem'
    · rcases List.mem_map.mp hmem' with ⟨m, hmF, hEq⟩
      exact (hfm m (hFsub m hmF)).2 hEq
    · have hEq : X.hash = mL.hash := by simpa using hmem'
      exact (hfm mL hmLmem).2 hEq.symm
  have hL3len : ((F.map SMSMessage.hash ++ [mL.hash]).drop 1).length <
      MAX_STORED_HASHES := by
    simp [List.length_drop, List.length_append, hFlen, MAX_STORED_HASHES]
  -- step 4: the trailing duplicate of X is treated as new again
  have hstep4 : tickStep ((F.map SMSMessage.hash ++ [mL.hash]).drop 1) X.hash =
      ((F.map SMSMessage.hash ++ [mL.hash]).drop 1 ++ [X.hash], true) :=
    tickStep_of_not_mem_small hXnotL3 hL3len
  -- assemble the loop
  have hXnotF : X ∉ F := by
    intro hmem
    exact (hfm X (hFsub X hmem)).2 rfl
  have hXneMl : mL ≠ X := by
    intro hEq
    exact (hfm mL hmLmem).2 (by rw [hEq])
  rw [hsplit]
  simp only [tickLoop, hstep1, List.append_assoc, List.cons_append,
    List.nil_append, if_true, ite_true]
  rw [tickLoop_append F [mL, X]]
  simp only [hrun1, tickLoop, hstep3, hL3, hstep4]
  simp [List.count_append, List.count_cons, hXneMl,
    List.count_eq_zero_of_not_mem hXnotF]

/-- Distinct repetition counts give distinct fixture hashes. -/
theorem cexHash_inj {m n : Nat} (h : cexHash m = cexHash n) : m = n := by
  have hl := congrArg (fun s => s.data.length) h
  simpa [cexHash] using hl

/-- As long as the cap is never hit during a tick, nothing is evicted:
the final set is no larger than the input plus the batch, no delivered
hash was already in the set, and no hash is delivered twice. -/
theorem tickLoop_noTrim (msgs : List SMSMessage) :
    ∀ ledger : List String, ledger.length + msgs.length ≤ MAX_STORED_HASHES →
      ((tickLoop ledger msgs).1.length ≤ ledger.length + msgs.length ∧
       (∀ h, h ∈ ledger → h ∉ (tickLoop ledger msgs).2.map SMSMessage.hash) ∧
       ((tickLoop ledger msgs).2.map SMSMessage.hash).Nodup) := by
  induction msgs with
  | nil =>
    intro ledger hlen
    simp [tickLoop]
  | cons m rest ih =>
    intro ledger hlen
    by_cases hm : m.hash ∈ ledger
    · have ihh := ih ledger
        (by simp only [List.length_cons] at hlen; omega)
      simp only [tickLoop, tickStep_of_mem hm]
      refine ⟨?_, ihh.2.1, ihh.2.2⟩
      have h1 := ihh.1
      simp only [List.length_cons]
      omega
    · have hsmall : ledger.length < MAX_STORED_HASHES := by
        simp only [List.length_cons] at hlen
        omega
      have hstep := tickStep_of_not_mem_small hm hsmall
      have ihh := ih (ledger ++ [m.hash])
        (by simp only [List.length_append, List.length_singleton,
              List.length_cons, List.length_nil] at hlen ⊢
            omega)
      simp only [tickLoop, hstep, ite_true, List.map_cons]
      refine ⟨?_, ?_, ?_⟩
      · have h1 := ihh.1
        simp only [List.length_append, List.length_singleton, List.length_cons,
          List.length_nil] at h1 ⊢
        omega
      · intro h hh
        simp only [List.mem_cons]
        rintro (hEq | hmem)
        · exact hm (hEq ▸ hh)
        · exact ihh.2.1 h (List.mem_append_left _ hh) hmem
      · refine List.nodup_cons.mpr ⟨?_, ihh.2.2⟩
        exact ihh.2.1 m.hash (by simp)

/-! ## Claim theorems -/

/-- **C1** (amended): after `MAX_RECONNECT_ATTEMPTS` failed
reconnection attempts, a call whose liveness probe fails returns
`false` without a new initialization attempt (the result does not
depend on the initialization oracle `o`); but the condition is not
terminal: the failing path nulls the browser handles, so every
subsequent call goes straight into `initializeBrowser` — a fresh
browser launch and login navigation — which on success returns `true`
and resets the counter. -/
theorem degraded_state_behavior (st : BrowserState) (o : InitOutcome)
    (hmax : MAX_RECONNECT_ATTEMPTS ≤ st.reconnectAttempts)
    (hb : st.browser = true) (hp : st.page = true) :
    ensureBrowserActive st true o =
      (⟨false, false, st.reconnectAttempts⟩, false) ∧
    (∀ (st' : BrowserState) (e' : Bool) (o' : InitOutcome),
      st'.browser = false →
      ensureBrowserActive st' e' o' = initializeBrowser st' o') := by
  constructor
  · have hnot : ¬ st.reconnectAttempts < MAX_RECONNECT_ATTEMPTS := by omega
    simp [ensureBrowserActive, hb, hp, hnot]
  · intro st' e' o' hb'
    simp [ensureBrowserActive, hb']

theorem degraded_state_behavior_witness :
    (ensureBrowserActive ⟨true, true, 5⟩ true .success =
      (⟨false, false, 5⟩, false)) ∧
    ensureBrowserActive ⟨false, false, 5⟩ true .gotoLoginFail =
      initializeBrowser ⟨false, false, 5⟩ .gotoLoginFail := by
  have h := degraded_state_behavior ⟨true, true, 5⟩ InitOutcome.success
    (by decide) rfl rfl
  exact ⟨h.1, h.2 ⟨false, false, 5⟩ true .gotoLoginFail rfl⟩

/-- **C1 counterexample**: in the post-exhaustion state (handles
nulled by the failed fifth attempt, counter at the maximum of 5), the
next `ensureBrowserActive` call does not return `false` without
network activity: it runs the full `initializeBrowser` sequence
(browser launch, login navigation) and, when that succeeds, returns
`true` and resets the counter to zero. -/
theorem degraded_state_cex :
    ensureBrowserActive ⟨false, false, 5⟩ false .success =
      (⟨true, true, 0⟩, true) := by
  decide

/-- **C6** (amended): the counter is reset to zero on every successful
initialization, but a failure inside the session-establishment
sequence itself leaves the partially-created resources in place and
the counter unchanged (and merely returns `false`); teardown plus
increment happen only in `ensureBrowserActive`'s liveness-probe
failure path, before it retries initialization. -/
theorem reconnect_counter_behavior (st : BrowserState) (o : InitOutcome)
    (hfail : o ≠ .success) (hb : st.browser = true) (hp : st.page = true)
    (hlt : st.reconnectAttempts < MAX_RECONNECT_ATTEMPTS) :
    (∀ st1 : BrowserState,
      initializeBrowser st1 .success = (⟨true, true, 0⟩, true)) ∧
    ((initializeBrowser st o).2 = false ∧
      (initializeBrowser st o).1.reconnectAttempts = st.reconnectAttempts) ∧
    ensureBrowserActive st true o =
      initializeBrowser ⟨false, false, st.reconnectAttempts + 1⟩ o := by
  refine ⟨fun st1 => rfl, ?_, ?_⟩
  · cases o <;> simp_all [initializeBrowser]
  · simp [ensureBrowserActive, hb, hp, hlt]

theorem reconnect_counter_behavior_witness :
    (∀ st1 : BrowserState,
      initializeBrowser st1 .success = (⟨true, true, 0⟩, true)) ∧
    ((initializeBrowser ⟨true, true, 2⟩ .authRejected).2 = false ∧
      (initializeBrowser ⟨true, true, 2⟩ .authRejected).1.reconnectAttempts = 2) ∧
    ensureBrowserActive ⟨true, true, 2⟩ true .authRejected =
      initializeBrowser ⟨false, false, 3⟩ .authRejected :=
  reconnect_counter_behavior ⟨true, true, 2⟩ .authRejected (by decide) rfl rfl
    (by decide)

/-- **C6 counterexample**: a `ChallengeUnsolved` failure inside
`initializeBrowser` (entered with no handles and counter 0) leaves
`browser` and `page` live (`true`, not torn down) and the counter at
`0` (not incremented), contradicting "partially-created resources are
torn down and the ReconnectCounter is incremented" on session-
establishment failures. -/
theorem reconnect_counter_cex :
    initializeBrowser ⟨false, false, 0⟩ .challengeUnsolved =
      (⟨true, true, 0⟩, false) := by
  decide

/-- **C7**: the single-flight guard: a `pollSMSAPI` invocation that
arrives while `isPolling` is set is a no-op returning the state
unchanged with nothing delivered or persisted; and for an invocation
that does run, the in-flight flag is clear afterwards even when the
body raised mid-loop (`raised` arbitrary), so a raised step cannot
wedge future ticks. -/
theorem tick_single_flight (st : PollState) (msgs : List SMSMessage)
    (raised : Option Nat) (so : SMSMessage → String → Bool)
    (chs : List String) :
    (st.isPolling = true →
      pollSMSAPI st msgs raised so chs = ⟨st, [], [], false⟩) ∧
    (st.isPolling = false →
      (pollSMSAPI st msgs raised so chs).state.isPolling = false) := by
  constructor
  · intro hp
    simp [pollSMSAPI, hp]
  · intro hp
    simp [pollSMSAPI, hp]

theorem tick_single_flight_witness :
    (pollSMSAPI ⟨["a"], true, 7, none⟩ [mkMsg "b"] none (fun _ _ => true) TELEGRAM_CHAT_IDS =
      ⟨⟨["a"], true, 7, none⟩, [], [], false⟩) ∧
    (pollSMSAPI ⟨["a"], false, 7, none⟩ [mkMsg "b"] (some 0) (fun _ _ => true)
        TELEGRAM_CHAT_IDS).state.isPolling = false :=
  ⟨(tick_single_flight ⟨["a"], true, 7, none⟩ [mkMsg "b"] none (fun _ _ => true)
      TELEGRAM_CHAT_IDS).1 rfl,
   (tick_single_flight ⟨["a"], false, 7, none⟩ [mkMsg "b"] (some 0) (fun _ _ => true)
      TELEGRAM_CHAT_IDS).2 rfl⟩

/-- **C10**: when an insertion overflows the cap (set had 1000 entries
and the hash is new), the ledger is immediately cut to the most recent
500 entries: the result is the suffix obtained by discarding the 501
oldest entries at once, so directly after any overflow the ledger
holds exactly 500 entries. -/
theorem overflow_trims_to_500 (ledger : List String) (h : String)
    (hlen : ledger.length = MAX_STORED_HASHES) (hm : h ∉ ledger) :
    tickStep ledger h = ((ledger ++ [h]).drop 501, true) ∧
    (tickStep ledger h).1.length = 500 := by
  refine ⟨tickStep_of_not_mem_full hm hlen, ?_⟩
  rw [tickStep_of_not_mem_full hm hlen]
  simp [List.length_drop, List.length_append, hlen, MAX_STORED_HASHES]

theorem overflow_trims_to_500_witness :
    tickStep (List.replicate 1000 "a") "b" =
      ((List.replicate 1000 "a" ++ ["b"]).drop 501, true) ∧
    (tickStep (List.replicate 1000 "a") "b").1.length = 500 :=
  overflow_trims_to_500 (List.replicate 1000 "a") "b"
    (by rw [List.length_replicate]; rfl)
    (by
      rw [List.mem_replicate]
      rintro ⟨-, hab⟩
      exact absurd hab (by decide))

/-- **C4**: `saveSentMessages` runs in a (non-raising) tick exactly
when at least one new record was delivered; a tick with an empty batch
(fetch timeout) or whose records were all already in the ledger
delivers nothing, leaves the ledger untouched, and performs no
persistence write. -/
theorem persist_iff_new_delivery (st : PollState) (msgs : List SMSMessage)
    (so : SMSMessage → String → Bool) (chs : List String)
    (hp : st.isPolling = false) :
    ((pollSMSAPI st msgs none so chs).didPersist = true ↔
      (pollSMSAPI st msgs none so chs).delivered ≠ []) ∧
    ((pollSMSAPI st msgs none so chs).delivered = [] →
      (pollSMSAPI st msgs none so chs).state.sentMessageHashes =
        st.sentMessageHashes ∧
      (pollSMSAPI st msgs none so chs).state.stored = st.stored) ∧
    (msgs = [] →
      (pollSMSAPI st msgs none so chs).delivered = [] ∧
      (pollSMSAPI st msgs none so chs).didPersist = false) := by
  refine ⟨?_, ?_, ?_⟩
  · simp [pollSMSAPI, hp, List.isEmpty_iff]
  · intro hd
    simp only [pollSMSAPI, hp, if_false, Bool.false_eq_true] at hd ⊢
    have hnil : (tickLoop st.sentMessageHashes msgs).2 = [] := hd
    refine ⟨tickLoop_ledger_of_no_delivered hnil, ?_⟩
    simp [hnil]
  · intro hmsgs
    subst hmsgs
    simp [pollSMSAPI, hp, tickLoop]

theorem persist_iff_new_delivery_witness :
    ((pollSMSAPI ⟨["a"], false, 0, some ["a"]⟩ [] none (fun _ _ => true)
        TELEGRAM_CHAT_IDS).didPersist = true ↔
      (pollSMSAPI ⟨["a"], false, 0, some ["a"]⟩ [] none (fun _ _ => true)
        TELEGRAM_CHAT_IDS).delivered ≠ []) ∧
    ((pollSMSAPI ⟨["a"], false, 0, some ["a"]⟩ [] none (fun _ _ => true)
        TELEGRAM_CHAT_IDS).delivered = [] →
      (pollSMSAPI ⟨["a"], false, 0, some ["a"]⟩ [] none (fun _ _ => true)
        TELEGRAM_CHAT_IDS).state.sentMessageHashes = ["a"] ∧
      (pollSMSAPI ⟨["a"], false, 0, some ["a"]⟩ [] none (fun _ _ => true)
        TELEGRAM_CHAT_IDS).state.stored = some ["a"]) ∧
    ([] = ([] : List SMSMessage) →
      (pollSMSAPI ⟨["a"], false, 0, some ["a"]⟩ [] none (fun _ _ => true)
        TELEGRAM_CHAT_IDS).delivered = [] ∧
      (pollSMSAPI ⟨["a"], false, 0, some ["a"]⟩ [] none (fun _ _ => true)
        TELEGRAM_CHAT_IDS).didPersist = false) :=
  persist_iff_new_delivery ⟨["a"], false, 0, some ["a"]⟩ [] (fun _ _ => true)
    TELEGRAM_CHAT_IDS rfl

/-- **C5**: per-channel failure isolation of the dispatcher: every
configured channel is attempted, in order, whatever the outcomes;
each channel's result is `(ch, outcome ch)`, depending only on its own
outcome; and the tick's ledger state, delivered list and persistence
decision are independent of the delivery outcomes (the record stays
marked as seen even if delivery failed on every channel). -/
theorem channel_failure_isolation (chs : List String)
    (outcome : String → Bool) :
    ((sendOTPToTelegram chs outcome).map Prod.fst = chs) ∧
    (∀ ch ∈ chs, (ch, outcome ch) ∈ sendOTPToTelegram chs outcome) ∧
    (∀ o1 o2 : String → Bool, ∀ ch, o1 ch = o2 ch →
      (sendOTPToTelegram chs o1).filter (fun p => p.1 == ch) =
        (sendOTPToTelegram chs o2).filter (fun p => p.1 == ch)) ∧
    (∀ (st : PollState) (msgs : List SMSMessage) (raised : Option Nat)
        (o1 o2 : SMSMessage → String → Bool),
      (pollSMSAPI st msgs raised o1 chs).state =
        (pollSMSAPI st msgs raised o2 chs).state ∧
      (pollSMSAPI st msgs raised o1 chs).delivered =
        (pollSMSAPI st msgs raised o2 chs).delivered ∧
      (pollSMSAPI st msgs raised o1 chs).didPersist =
        (pollSMSAPI st msgs raised o2 chs).didPersist) := by
  refine ⟨?_, ?_, ?_, ?_⟩
  · induction chs with
    | nil => rfl
    | cons c rest ihc => simpa [sendOTPToTelegram] using ihc
  · intro ch hch
    exact List.mem_map_of_mem _ hch
  · intro o1 o2 ch ho
    induction chs with
    | nil => simp [sendOTPToTelegram]
    | cons c rest ihc =>
      simp only [sendOTPToTelegram, List.map_cons, List.filter_cons] at ihc ⊢
      by_cases hc : c = ch
      · subst hc
        simp [ho, ihc]
      · have hbeq : (c == ch) = false := by simp [hc]
        simp [hbeq, ihc]
  · intro st msgs raised o1 o2
    by_cases hp : st.isPolling <;> simp [pollSMSAPI, hp]

theorem channel_failure_isolation_witness :
    ((sendOTPToTelegram TELEGRAM_CHAT_IDS (fun _ => false)).map Prod.fst =
      TELEGRAM_CHAT_IDS) ∧
    (∀ ch ∈ TELEGRAM_CHAT_IDS,
      (ch, false) ∈ sendOTPToTelegram TELEGRAM_CHAT_IDS (fun _ => false)) := by
  have h := channel_failure_isolation TELEGRAM_CHAT_IDS (fun _ => false)
  exact ⟨h.1, h.2.1⟩

/-- **C3** (amended): the fingerprint is a function of exactly the
`{timestamp, destination, source, content}` row fields, so records
agreeing on them get equal fingerprints; and in any tick in which the
cap is never hit (so no mid-batch eviction occurs), no record whose
fingerprint is in the ledger is delivered and no fingerprint is
delivered twice in the same batch.  (Without the no-eviction bound the
dedup guarantee fails: see the counterexample.) -/
theorem fingerprint_dedup (r1 r2 : SMSRow) (ledger : List String)
    (msgs : List SMSMessage)
    (h0 : r1.c0 = r2.c0) (h2 : r1.c2 = r2.c2) (h3 : r1.c3 = r2.c3)
    (h5 : r1.c5 = r2.c5)
    (hcap : ledger.length + msgs.length ≤ MAX_STORED_HASHES) :
    fingerprint r1 = fingerprint r2 ∧
    (∀ m : SMSMessage, m.hash ∈ ledger → m ∉ (tickLoop ledger msgs).2) ∧
    ((tickLoop ledger msgs).2.map SMSMessage.hash).Nodup := by
  refine ⟨?_, ?_, (tickLoop_noTrim msgs ledger hcap).2.2⟩
  · unfold fingerprint msgData
    rw [h0, h2, h3, h5]
  · intro m hmem hdel
    exact (tickLoop_noTrim msgs ledger hcap).2.1 m.hash hmem
      (List.mem_map_of_mem _ hdel)

theorem fingerprint_dedup_witness :
    fingerprint ⟨"2024", "dst", "src", "clientA", "body"⟩ =
      fingerprint ⟨"2024", "dst", "src", "clientB", "body"⟩ ∧
    (∀ m : SMSMessage, m.hash ∈ ["a"] → m ∉ (tickLoop ["a"] [mkMsg "a", mkMsg "b"]).2) ∧
    ((tickLoop ["a"] [mkMsg "a", mkMsg "b"]).2.map SMSMessage.hash).Nodup :=
  fingerprint_dedup ⟨"2024", "dst", "src", "clientA", "body"⟩
    ⟨"2024", "dst", "src", "clientB", "body"⟩ ["a"] [mkMsg "a", mkMsg "b"]
    rfl rfl rfl rfl (by norm_num [MAX_STORED_HASHES])

/-- **C3 counterexample**: with a full ledger (1000 fingerprints) and a
batch `X, m1..m501, X`, the mid-batch overflow trims evict `X`'s
fingerprint even though `X` was delivered earlier in the same batch,
and the trailing duplicate of `X` is delivered a second time — the
duplicate count of `X` in the delivered list is 2, contradicting
"a duplicate appearing later in the same batch [is not delivered
again]". -/
theorem fingerprint_dedup_cex :
    (tickLoop cexLedger cexBatch).2.count cexMsgX = 2 := by
  have happ : cexBatch = cexMsgX :: (cexFresh ++ [cexMsgX]) := rfl
  rw [happ]
  refine tickLoop_redelivers _ _ _ ?_ ?_ ?_ ?_ ?_
  · simp [cexLedger, MAX_STORED_HASHES]
  · simp only [cexMsgX, mkMsg, cexLedger, List.mem_map, List.mem_range,
      not_exists]
    rintro n ⟨hn, hEq⟩
    have := cexHash_inj hEq
    omega
  · simp [cexFresh]
  · simp only [cexFresh, List.map_map]
    refine List.Nodup.map ?_ (List.nodup_range 501)
    intro a b hab
    simp only [Function.comp, mkMsg] at hab
    have := cexHash_inj hab
    omega
  · intro m hm
    simp only [cexFresh, List.mem_map, List.mem_range] at hm
    obtain ⟨n, hn, rfl⟩ := hm
    constructor
    · simp only [mkMsg, cexLedger, List.mem_map, List.mem_range, not_exists]
      rintro k ⟨hk, hEq⟩
      have := cexHash_inj hEq
      omega
    · intro hEq
      simp only [mkMsg, cexMsgX] at hEq
      have := cexHash_inj hEq
      omega

/-- The folded `new Set(list)` construction never grows faster than its
input. -/
theorem jsSetOfList_aux_length (l : List String) :
    ∀ acc : List String,
      (l.foldl (fun acc h => if h ∈ acc then acc else acc ++ [h]) acc).length ≤
        acc.length + l.length := by
  induction l with
  | nil =>
    intro acc
    simp
  | cons x rest ih =>
    intro acc
    simp only [List.foldl_cons, List.length_cons]
    by_cases hx : x ∈ acc
    · simp only [if_pos hx]
      exact (ih acc).trans (by omega)
    · simp only [if_neg hx]
      have := ih (acc ++ [x])
      simp only [List.length_append, List.length_singleton] at this
      omega

theorem jsSetOfList_length_le (l : List String) :
    (jsSetOfList l).length ≤ l.length := by
  simpa using jsSetOfList_aux_length l []

/-- `new Set(list)` of a duplicate-free list is the list itself. -/
theorem jsSetOfList_aux_eq (l : List String) :
    ∀ acc : List String, (acc ++ l).Nodup →
      l.foldl (fun acc h => if h ∈ acc then acc else acc ++ [h]) acc =
        acc ++ l := by
  induction l with
  | nil =>
    intro acc _
    simp
  | cons x rest ih =>
    intro acc hnd
    have hx : x ∉ acc := fun hmem =>
      (List.nodup_append.mp hnd).2.2 hmem (by simp)
    have hnd' : ((acc ++ [x]) ++ rest).Nodup := by
      rw [← List.append_cons]
      exact hnd
    simp only [List.foldl_cons, if_neg hx, ih (acc ++ [x]) hnd']
    exact (List.append_cons acc x rest).symm

theorem jsSetOfList_eq_self {l : List String} (hnd : l.Nodup) :
    jsSetOfList l = l := by
  simpa using jsSetOfList_aux_eq l [] (by simpa using hnd)

/-- **C2**: the cap invariant and eviction order: a tick keeps the
in-memory set within `MAX_STORED_HASHES` (and duplicate-free); a
reloaded snapshot within the cap stays within it; every persisted
snapshot is within the cap; and eviction only ever removes the
oldest-inserted fingerprints (the post-insertion set is a suffix of
the ledger with the new hash appended). -/
theorem ledger_cap_invariant (st : PollState) (msgs : List SMSMessage)
    (raised : Option Nat) (so : SMSMessage → String → Bool)
    (chs : List String) (file : List String)
    (hlen : st.sentMessageHashes.length ≤ MAX_STORED_HASHES)
    (hnd : st.sentMessageHashes.Nodup)
    (hfile : file.length ≤ MAX_STORED_HASHES) :
    ((pollSMSAPI st msgs raised so chs).state.sentMessageHashes.length ≤
      MAX_STORED_HASHES ∧
     (pollSMSAPI st msgs raised so chs).state.sentMessageHashes.Nodup) ∧
    (loadSentMessages (some file)).length ≤ MAX_STORED_HASHES ∧
    (∀ l : List String,
      (saveSentMessages l).length ≤ MAX_STORED_HASHES) ∧
    ((pollSMSAPI st msgs raised so chs).didPersist = true →
      ∃ f, (pollSMSAPI st msgs raised so chs).state.stored = some f ∧
        f.length ≤ MAX_STORED_HASHES) ∧
    (∀ (ledger : List String) (h : String), h ∉ ledger →
      (tickStep ledger h).1 <:+ ledger ++ [h]) := by
  have hsave : ∀ l : List String,
      (saveSentMessages l).length ≤ MAX_STORED_HASHES := by
    intro l
    simp only [saveSentMessages, List.length_drop]
    omega
  refine ⟨?_, ?_, hsave, ?_, fun ledger h hm => tickStep_suffix hm⟩
  · by_cases hp : st.isPolling
    · simp [pollSMSAPI, hp, hlen, hnd]
    · simp only [pollSMSAPI, hp, if_false]
      exact ⟨tickLoop_length_le hlen, tickLoop_nodup hnd⟩
  · simp only [loadSentMessages]
    exact (jsSetOfList_length_le file).trans hfile
  · intro hdid
    by_cases hp : st.isPolling
    · simp [pollSMSAPI, hp] at hdid
    · simp [pollSMSAPI, hp] at hdid
      obtain ⟨hr, hne⟩ := hdid
      subst hr
      have hne' : ¬(tickLoop st.sentMessageHashes msgs).2 = [] := hne
      simp [pollSMSAPI, hp, hne', hsave]

theorem ledger_cap_invariant_witness :
    (((pollSMSAPI ⟨["a"], false, 0, none⟩ [mkMsg "b"] none (fun _ _ => true)
        TELEGRAM_CHAT_IDS).state.sentMessageHashes.length ≤
      MAX_STORED_HASHES ∧
      (pollSMSAPI ⟨["a"], false, 0, none⟩ [mkMsg "b"] none (fun _ _ => true)
        TELEGRAM_CHAT_IDS).state.sentMessageHashes.Nodup) ∧
    (loadSentMessages (some ["x", "y"])).length ≤ MAX_STORED_HASHES ∧
    (∀ l : List String,
      (saveSentMessages l).length ≤ MAX_STORED_HASHES) ∧
    ((pollSMSAPI ⟨["a"], false, 0, none⟩ [mkMsg "b"] none (fun _ _ => true)
        TELEGRAM_CHAT_IDS).didPersist = true →
      ∃ f, (pollSMSAPI ⟨["a"], false, 0, none⟩ [mkMsg "b"] none
          (fun _ _ => true) TELEGRAM_CHAT_IDS).state.stored = some f ∧
        f.length ≤ MAX_STORED_HASHES) ∧
    (∀ (ledger : List String) (h : String), h ∉ ledger →
      (tickStep ledger h).1 <:+ ledger ++ [h])) :=
  ledger_cap_invariant ⟨["a"], false, 0, none⟩ [mkMsg "b"] none
    (fun _ _ => true) TELEGRAM_CHAT_IDS ["x", "y"]
    (by norm_num [MAX_STORED_HASHES]) (by simp)
    (by norm_num [MAX_STORED_HASHES])

/-- **C8**: persist-then-load round-trips: for a duplicate-free ledger
within the cap, the persisted snapshot is exactly the ledger (all of
its entries, in order) and reloading it restores the identical
in-memory set; in general the persisted artifact is the suffix of the
most recent `min |l| M` entries, in order. -/
theorem persist_load_roundtrip (l : List String) (hnd : l.Nodup)
    (hlen : l.length ≤ MAX_STORED_HASHES) :
    loadSentMessages (some (saveSentMessages l)) = l ∧
    saveSentMessages l = l ∧
    (∀ l' : List String, saveSentMessages l' <:+ l' ∧
      (saveSentMessages l').length = min l'.length MAX_STORED_HASHES) := by
  have hsv : saveSentMessages l = l := by
    simp [saveSentMessages, Nat.sub_eq_zero_of_le hlen]
  refine ⟨?_, hsv, ?_⟩
  · rw [hsv]
    simpa [loadSentMessages] using jsSetOfList_eq_self hnd
  · intro l'
    refine ⟨l'.drop_suffix _, ?_⟩
    simp only [saveSentMessages, List.length_drop]
    omega

theorem persist_load_roundtrip_witness :
    loadSentMessages (some (saveSentMessages ["a", "b"])) = ["a", "b"] ∧
    saveSentMessages ["a", "b"] = ["a", "b"] ∧
    (∀ l' : List String, saveSentMessages l' <:+ l' ∧
      (saveSentMessages l').length = min l'.length MAX_STORED_HASHES) :=
  persist_load_roundtrip ["a", "b"] (by simp)
    (by norm_num [MAX_STORED_HASHES])

/-! ### Lemmas for the captcha solver -/

theorem jsIsSpace_not_digit {c : Char} (h : jsIsSpace c = true) :
    jsIsDigit c = false := by
  by_contra hne
  have hd : jsIsDigit c = true := by
    cases hdd : jsIsDigit c
    · exact absurd hdd hne
    · rfl
  simp only [jsIsSpace, Bool.or_eq_true, Bool.and_eq_true,
    decide_eq_true_eq] at h
  simp only [jsIsDigit, Bool.and_eq_true, decide_eq_true_eq] at hd
  omega

theorem matchPlusAt_head_not_digit {c : Char} {cs : List Char}
    (hc : jsIsDigit c = false) : matchPlusAt (c :: cs) = none := by
  simp [matchPlusAt, hc]

theorem findPlusMatch_cons_not_digit {c : Char} {cs : List Char}
    (hc : jsIsDigit c = false) :
    findPlusMatch (c :: cs) = findPlusMatch cs := by
  simp [findPlusMatch, matchPlusAt_head_not_digit hc]

theorem findPlusMatch_dropWhile_space (cs : List Char) :
    findPlusMatch (cs.dropWhile jsIsSpace) = findPlusMatch cs := by
  induction cs with
  | nil => rfl
  | cons c cs ih =>
    by_cases hsp : jsIsSpace c
    · rw [List.dropWhile_cons_of_pos hsp, ih,
        findPlusMatch_cons_not_digit (jsIsSpace_not_digit hsp)]
    · rw [List.dropWhile_cons_of_neg hsp]

theorem findPlusMatch_all_space {sp : List Char}
    (hsp : ∀ c ∈ sp, jsIsSpace c = true) : findPlusMatch sp = none := by
  induction sp with
  | nil => rfl
  | cons c cs ih =>
    rw [findPlusMatch_cons_not_digit (jsIsSpace_not_digit (hsp c (by simp)))]
    exact ih (fun c' hc' => hsp c' (by simp [hc']))

/-- `takeWhile` does not reach past `l1` when everything in `l2`
fails the predicate. -/
theorem takeWhile_append_stops (p : Char → Bool) (l1 l2 : List Char)
    (h2 : ∀ c ∈ l2, p c = false) :
    (l1 ++ l2).takeWhile p = l1.takeWhile p := by
  induction l1 with
  | nil =>
    cases l2 with
    | nil => rfl
    | cons c cs => simp [List.takeWhile_cons, h2 c (by simp)]
  | cons x xs ih =>
    rw [List.cons_append, List.takeWhile_cons, List.takeWhile_cons]
    cases hx : p x <;> simp [ih]

/-- `dropWhile` does not reach past `l1` when everything in `l2`
fails the predicate. -/
theorem dropWhile_append_stops (p : Char → Bool) (l1 l2 : List Char)
    (h2 : ∀ c ∈ l2, p c = false) :
    (l1 ++ l2).dropWhile p = l1.dropWhile p ++ l2 := by
  rw [List.dropWhile_append]
  split
  · rename_i hemp
    have hnil : l1.dropWhile p = [] := by
      simpa [List.isEmpty_iff] using hemp
    rw [hnil, List.nil_append]
    cases l2 with
    | nil => rfl
    | cons c cs => simp [List.dropWhile_cons, h2 c (by simp)]
  · rfl

/-- `dropWhile` over an all-satisfying tail: either everything goes,
or the tail survives whole. -/
theorem dropWhile_append_all (p : Char → Bool) (l1 l2 : List Char)
    (h2 : ∀ c ∈ l2, p c = true) :
    (l1 ++ l2).dropWhile p =
      if (l1.dropWhile p).isEmpty then [] else l1.dropWhile p ++ l2 := by
  rw [List.dropWhile_append]
  split
  · exact List.dropWhile_eq_nil_iff.mpr (fun x hx => h2 x hx)
  · rfl

/-- Appending trailing whitespace does not change an anchored match. -/
theorem matchPlusAt_append_space (ys sp : List Char)
    (hsp : ∀ c ∈ sp, jsIsSpace c = true) :
    matchPlusAt (ys ++ sp) = matchPlusAt ys := by
  have hnd : ∀ c ∈ sp, jsIsDigit c = false :=
    fun c hc => jsIsSpace_not_digit (hsp c hc)
  unfold matchPlusAt
  rw [takeWhile_append_stops _ _ _ hnd]
  by_cases hd1 : (ys.takeWhile jsIsDigit).isEmpty
  · simp [hd1]
  · simp only [hd1, if_false, Bool.false_eq_true]
    rw [dropWhile_append_stops _ _ _ hnd, dropWhile_append_all _ _ _ hsp]
    by_cases hB : ((ys.dropWhile jsIsDigit).dropWhile jsIsSpace).isEmpty
    · have hBnil : (ys.dropWhile jsIsDigit).dropWhile jsIsSpace = [] := by
        simpa [List.isEmpty_iff] using hB
      simp [hB, hBnil]
    · simp only [hB, if_false, Bool.false_eq_true]
      cases hBc : (ys.dropWhile jsIsDigit).dropWhile jsIsSpace with
      | nil => simp [hBc] at hB
      | cons b bs =>
        rw [List.cons_append]
        by_cases hb : b = '+'
        · subst hb
          simp only [if_true, if_pos rfl]
          rw [dropWhile_append_all _ _ _ hsp]
          by_cases hC : (bs.dropWhile jsIsSpace).isEmpty
          · have hCnil : bs.dropWhile jsIsSpace = [] := by
              simpa [List.isEmpty_iff] using hC
            simp [hC, hCnil]
          · simp only [hC, if_false, Bool.false_eq_true]
            rw [takeWhile_append_stops _ _ _ hnd]
        · simp [hb]

/-- Appending trailing whitespace does not change the leftmost match. -/
theorem findPlusMatch_append_space (xs sp : List Char)
    (hsp : ∀ c ∈ sp, jsIsSpace c = true) :
    findPlusMatch (xs ++ sp) = findPlusMatch xs := by
  induction xs with
  | nil => simpa using findPlusMatch_all_space hsp
  | cons x xs ih =>
    rw [List.cons_append]
    show findPlusMatch (x :: (xs ++ sp)) = findPlusMatch (x :: xs)
    simp only [findPlusMatch]
    rw [show x :: (xs ++ sp) = (x :: xs) ++ sp from rfl,
      matchPlusAt_append_space _ _ hsp]
    cases matchPlusAt (x :: xs) with
    | none => simpa using ih
    | some r => rfl

/-- `trim` does not change the leftmost match: the trimmed text is the
text minus leading and trailing whitespace. -/
theorem findPlusMatch_jsTrim (t : List Char) :
    findPlusMatch (jsTrim t) = findPlusMatch t := by
  unfold jsTrim
  rw [← findPlusMatch_dropWhile_space t]
  generalize t.dropWhile jsIsSpace = u
  have hdecomp : u = (u.reverse.dropWhile jsIsSpace).reverse ++
      (u.reverse.takeWhile jsIsSpace).reverse := by
    rw [← List.reverse_append, List.takeWhile_append_dropWhile,
      List.reverse_reverse]
  conv_rhs => rw [hdecomp]
  rw [findPlusMatch_append_space]
  intro c hc
  rw [List.mem_reverse] at hc
  exact List.mem_takeWhile_imp hc

theorem solveMathCaptcha_eq_none {texts : List (List Char)}
    (h : ∀ t ∈ texts, findPlusMatch t = none) :
    solveMathCaptcha texts = none := by
  induction texts with
  | nil => rfl
  | cons t ts ih =>
    simp only [solveMathCaptcha, findPlusMatch_jsTrim, h t (by simp)]
    exact ih (fun u hu => h u (by simp [hu]))

/-- **C9**: the solver is a pure function of the page's element texts:
when no element's text matches `(\d+)\s*\+\s*(\d+)`, it returns
`none`; and for the first element whose text matches, it returns the
sum of the two operands captured by that element's leftmost match
(the `trim` the code applies first cannot create or destroy a match). -/
theorem solveMathCaptcha_spec (pre : List (List Char)) (t : List Char)
    (post : List (List Char)) (a b : Nat)
    (hpre : ∀ u ∈ pre, findPlusMatch u = none)
    (hmatch : findPlusMatch t = some (a, b)) :
    solveMathCaptcha (pre ++ t :: post) = some (a + b) ∧
    (∀ texts : List (List Char), (∀ u ∈ texts, findPlusMatch u = none) →
      solveMathCaptcha texts = none) := by
  refine ⟨?_, fun texts h => solveMathCaptcha_eq_none h⟩
  induction pre with
  | nil =>
    simp only [List.nil_append, solveMathCaptcha, findPlusMatch_jsTrim, hmatch]
  | cons u us ih =>
    simp only [List.cons_append, solveMathCaptcha, findPlusMatch_jsTrim,
      hpre u (by simp)]
    exact ih (fun v hv => hpre v (by simp [hv]))

theorem solveMathCaptcha_spec_witness :
    solveMathCaptcha (["ab".data] ++ " 3 + 14?".data :: ["9+9".data]) =
      some 17 ∧
    (∀ texts : List (List Char), (∀ u ∈ texts, findPlusMatch u = none) →
      solveMathCaptcha texts = none) :=
  solveMathCaptcha_spec ["ab".data] " 3 + 14?".data ["9+9".data] 3 14
    (by
      intro u hu
      simp only [List.mem_singleton] at hu
      subst hu
      decide)
    (by decide)

end OtpBot
